import Mathlib

/-!
Verification development for the hiqty playback coordinator.

The definitions below are shallow embeddings of the Go source:

* the key namespace helpers of the main package (KeyForServer, GIDFromKey,
  TopicForKeyspaceEvent, GIDFromKeyspaceEventTopic);
* the reconciliation step Player.Fulfill and the playback session loop
  Player.Play of player.go, as explicit state passing over a per-guild
  store plus an event script for the select loop;
* TrackEnvelope.UnmarshalJSON, the two-pass tagged decode of queue entries;
* the enqueue loop of Responder.HandleMessageCreate together with the
  soundcloud Track.GetPlayable predicate.

Redis primitives (GET/SET/DEL/LRANGE/LPOP/RPUSH) act on an explicit
GuildStore record; the keyspace layout itself is checked separately through
the key namespace functions.
-/

namespace Hiqty

/-! ### Key namespace (part_000 of the main package)

Go builds keys with fmt.Sprintf and decomposes them with
strings.Split(s, ":") followed by list indexing. splitColon is the
character-level model of strings.Split on the ":" separator: every colon
separates fields and the empty string yields one empty field, exactly as
the Go standard library behaves for a one-character separator. The Go
index expression split[i] panics when the split has at most i fields; the
embeddings below therefore return an Option, where none models that panic.
-/

/-- Model of strings.Split(s, ":") on the character list of the string. -/
def splitColon : List Char → List (List Char)
  | [] => [[]]
  | c :: rest =>
    let ps := splitColon rest
    if c = ':' then [] :: ps
    else (c :: ps.headI) :: ps.tail

/-- KeyForServer returns the redis key for the server's given subkey:
fmt.Sprintf("hiqty:server:%s:%s", gid, key). -/
def KeyForServer (gid key : String) : String :=
  "hiqty:server:" ++ gid ++ ":" ++ key

/-- KeyForServerPlaylist returns the redis key for a server's playlist. -/
def KeyForServerPlaylist (gid : String) : String := KeyForServer gid "playlist"

/-- KeyForServerState returns the redis key for a server's state. -/
def KeyForServerState (gid : String) : String := KeyForServer gid "state"

/-- KeyForServerChannel returns the redis key for a server's active channel. -/
def KeyForServerChannel (gid : String) : String := KeyForServer gid "channel"

/-- KeyForServerPlayerLock returns the redis key for a server's player lock. -/
def KeyForServerPlayerLock (gid : String) : String := KeyForServer gid "player_lock"

/-- TopicForKeyspaceEvent returns the topic for keyspace events on the given
key: fmt.Sprintf("__keyspace@%d__:%s", db, key). -/
def TopicForKeyspaceEvent (db : Nat) (key : String) : String :=
  "__keyspace@" ++ Nat.repr db ++ "__:" ++ key

/-- GIDFromKey models strings.Split(key, ":")[2]; none models the
out-of-range panic on keys with fewer than three fields. -/
def GIDFromKey (key : String) : Option String :=
  ((splitColon key.data).get? 2).map List.asString

/-- GIDFromKeyspaceEventTopic models strings.Split(topic, ":")[3]. -/
def GIDFromKeyspaceEventTopic (topic : String) : Option String :=
  ((splitColon topic.data).get? 3).map List.asString

theorem splitColon_ne_nil (l : List Char) : splitColon l ≠ [] := by
  cases l with
  | nil => simp [splitColon]
  | cons c rest =>
    simp only [splitColon]
    split <;> simp

theorem splitColon_append_of_not_mem (l₁ l₂ : List Char) (h : ':' ∉ l₁) :
    splitColon (l₁ ++ l₂) =
      (l₁ ++ (splitColon l₂).headI) :: (splitColon l₂).tail := by
  induction l₁ with
  | nil =>
    simp only [List.nil_append]
    rcases hsp : splitColon l₂ with _ | ⟨p, ps⟩
    · exact absurd hsp (splitColon_ne_nil l₂)
    · simp
  | cons c cs ih =>
    have hc : c ≠ ':' := fun hc => h (hc ▸ List.mem_cons_self c cs)
    have hcs : ':' ∉ cs := fun hm => h (List.mem_cons_of_mem c hm)
    simp only [List.cons_append, splitColon, if_neg hc, List.append_eq]
    rw [ih hcs]
    simp

theorem splitColon_colon_cons (l : List Char) :
    splitColon (':' :: l) = [] :: splitColon l := by
  simp [splitColon]

/-- Splitting a well-formed server key on colons yields the fixed prefix
fields, then the guild ID field, then the fields of the subkey, provided
the guild ID itself holds no colon. -/
theorem splitColon_keyForServer (g s : String) (hg : ':' ∉ g.data) :
    splitColon (KeyForServer g s).data =
      "hiqty".data :: "server".data :: g.data ::
        (splitColon s.data).headI :: (splitColon s.data).tail := by
  have h1 : ':' ∉ ['h', 'i', 'q', 't', 'y'] := by decide
  have h2 : ':' ∉ ['s', 'e', 'r', 'v', 'e', 'r'] := by decide
  have hdata : (KeyForServer g s).data =
      ['h', 'i', 'q', 't', 'y'] ++
        ':' :: (['s', 'e', 'r', 'v', 'e', 'r'] ++ ':' :: (g.data ++ ':' :: s.data)) := by
    simp [KeyForServer, String.data_append]
  rw [hdata, splitColon_append_of_not_mem _ _ h1, splitColon_colon_cons]
  simp only [List.headI, List.tail_cons, List.append_nil]
  rw [splitColon_append_of_not_mem _ _ h2, splitColon_colon_cons]
  simp only [List.headI, List.tail_cons, List.append_nil]
  rw [splitColon_append_of_not_mem _ _ hg, splitColon_colon_cons]
  simp only [List.headI, List.tail_cons, List.append_nil]
  obtain ⟨p, ps, hsp⟩ : ∃ p ps, splitColon s.data = p :: ps := by
    rcases h' : splitColon s.data with _ | ⟨p, ps⟩
    · exact absurd h' (splitColon_ne_nil s.data)
    · exact ⟨p, ps, rfl⟩
  simp [hsp]

theorem toDigitsCore_ne_colon :
    ∀ (fuel n : Nat) (acc : List Char), (∀ c ∈ acc, c ≠ ':') →
      ∀ c ∈ Nat.toDigitsCore 10 fuel n acc, c ≠ ':' := by
  intro fuel
  induction fuel with
  | zero => intro n acc hacc c hc; exact hacc c hc
  | succ f ih =>
    intro n acc hacc c hc
    have hd : Nat.digitChar (n % 10) ≠ ':' := by
      have : n % 10 < 10 := Nat.mod_lt _ (by decide)
      interval_cases h : n % 10 <;> decide
    simp only [Nat.toDigitsCore] at hc
    split at hc
    · rcases List.mem_cons.mp hc with h | h
      · exact h ▸ hd
      · exact hacc c h
    · refine ih _ _ ?_ c hc
      intro d hdm
      rcases List.mem_cons.mp hdm with h | h
      · exact h ▸ hd
      · exact hacc d h

theorem natRepr_no_colon (n : Nat) : ':' ∉ (Nat.repr n).data := by
  intro h
  have : (Nat.repr n).data = Nat.toDigitsCore 10 (n + 1) n [] := rfl
  rw [this] at h
  exact toDigitsCore_ne_colon (n + 1) n [] (by simp) ':' h rfl

/-- Splitting a keyspace event topic on colons puts the store prefix in the
first field and shifts the key fields up by one. -/
theorem splitColon_topic (db : Nat) (key : String) :
    splitColon (TopicForKeyspaceEvent db key).data =
      ("__keyspace@".data ++ (Nat.repr db).data ++ "__".data) :: splitColon key.data := by
  have hdata : (TopicForKeyspaceEvent db key).data =
      ("__keyspace@".data ++ (Nat.repr db).data ++ "__".data) ++ (':' :: key.data) := by
    simp [TopicForKeyspaceEvent, String.data_append]
  have hpre : ':' ∉ ("__keyspace@".data ++ (Nat.repr db).data ++ "__".data) := by
    intro h
    rcases List.mem_append.mp h with h | h
    · rcases List.mem_append.mp h with h | h
      · revert h; decide
      · exact natRepr_no_colon db h
    · revert h; decide
  rw [hdata, splitColon_append_of_not_mem _ _ hpre, splitColon_colon_cons]
  simp

/-- C3 as stated fails when the guild ID itself holds a colon: the key for
guild "1:2" decomposes to guild "1", because strings.Split cuts at every
colon and index 2 only recovers the first field of the guild ID. -/
theorem gidFromKey_colon_counterexample :
    GIDFromKey (KeyForServer "1:2" "state") = some "1" ∧ ("1" : String) ≠ "1:2" := by
  constructor
  · rfl
  · decide

/-- C3, amended: for every guild ID free of colons, every subkey and every
database index, GIDFromKey inverts KeyForServer and
GIDFromKeyspaceEventTopic inverts TopicForKeyspaceEvent composed with
KeyForServer, and both inverses return a result (no panic case) on all such
well-formed inputs. -/
theorem keyNamespace_roundtrip (g s : String) (db : Nat) (hg : ':' ∉ g.data) :
    GIDFromKey (KeyForServer g s) = some g ∧
      GIDFromKeyspaceEventTopic (TopicForKeyspaceEvent db (KeyForServer g s)) = some g ∧
      (GIDFromKey (KeyForServer g s)).isSome = true ∧
      (GIDFromKeyspaceEventTopic (TopicForKeyspaceEvent db (KeyForServer g s))).isSome = true := by
  have hkey : GIDFromKey (KeyForServer g s) = some g := by
    unfold GIDFromKey
    rw [splitColon_keyForServer g s hg]
    simp
    exact String.asString_toList g
  have htopic : GIDFromKeyspaceEventTopic (TopicForKeyspaceEvent db (KeyForServer g s)) = some g := by
    unfold GIDFromKeyspaceEventTopic
    rw [splitColon_topic, splitColon_keyForServer g s hg]
    simp
    exact String.asString_toList g
  exact ⟨hkey, htopic, by rw [hkey]; rfl, by rw [htopic]; rfl⟩

/-- witness for keyNamespace_roundtrip at guild "100", subkey "state", db 0. -/
theorem keyNamespace_roundtrip_witness :
    (':' ∉ ("100" : String).data) ∧
      GIDFromKey (KeyForServer "100" "state") = some "100" ∧
      GIDFromKeyspaceEventTopic (TopicForKeyspaceEvent 0 (KeyForServer "100" "state")) = some "100" :=
  ⟨by decide, (keyNamespace_roundtrip "100" "state" 0 (by decide)).1,
    (keyNamespace_roundtrip "100" "state" 0 (by decide)).2.1⟩

/-! ### Player session and reconciliation step (player.go)

The per-guild slice of redis is a GuildStore record: the state key, the
channel key and the playlist list. A playlist element either decodes into a
Track by json.Unmarshal or fails structural decode; TrackData carries the
decoded fields player.go uses (Title, URL).

Player.Play runs two nested loops. The inner read loop peeks the queue
head with LRANGE 0 1: an empty reply deletes the state key and returns; a
head that fails decode is discarded with LPOP and the read is retried; a
decoded head is handed to a PlayTrack goroutine. The select loop then
waits on three channels: the playError channel (PlayTrack finished, with
or without a playback error: either way the head is popped with LPOP and
the outer loop continues), the outer context (cancellation: return with
the head still queued) and the 10 second extend ticker (mutex.Extend
returning false: return immediately). The select choices are modelled as
an explicit event script consumed in order; the observable store commands
and playback attempts are collected as a Step trace.
-/

/-- Title and URL of a decoded Track (player.go uses them for logging). -/
structure TrackData where
  title : String
  url : String
deriving DecidableEq

/-- a stored playlist element: bytes that fail json.Unmarshal into a
Track, or bytes that decode to one. -/
inductive Entry where
  | malformed
  | track (t : TrackData)
deriving DecidableEq

/-- one resolution of the select statement in the streaming loop. -/
inductive Ev where
  | trackDone (playbackError : Bool)
  | ctxDone
  | tick (extendOk : Bool)
deriving DecidableEq

/-- observable actions of the session: redis list and key commands plus
the handoff of a decoded head to PlayTrack. -/
inductive Step where
  | popMalformed
  | playAttempt (t : TrackData)
  | popCompleted
  | delState
  | extendFail
deriving DecidableEq

/-- why the run loop of Player.Play returned. -/
inductive Outcome where
  | drained
  | cancelled
  | leaseLost
  | stuck
deriving DecidableEq

/-- the per-guild keys of the shared store. -/
structure GuildStore where
  state : Option String
  channel : Option String
  playlist : List Entry
deriving DecidableEq

/-- result of one pass through the select statement. -/
inductive InnerRes where
  | done
  | cancel
  | lost
  | stuck
deriving DecidableEq

/-- the select loop of Player.Play while one track is in flight: a
playError delivery breaks out to pop the head, ctx.Done returns, a ticker
fire extends the mutex and either keeps waiting or returns on failure.
An exhausted script means the session is still blocked in the select. -/
def innerLoop : List Ev → InnerRes × List Ev
  | [] => (.stuck, [])
  | .trackDone _ :: evs => (.done, evs)
  | .ctxDone :: evs => (.cancel, evs)
  | .tick ok :: evs => if ok then innerLoop evs else (.lost, evs)

theorem innerLoop_done_length (evs evs2 : List Ev)
    (h : innerLoop evs = (.done, evs2)) : evs2.length < evs.length := by
  induction evs with
  | nil => simp [innerLoop] at h
  | cons e rest ih =>
    cases e with
    | trackDone b =>
      simp only [innerLoop] at h
      cases h
      simp
    | ctxDone => simp [innerLoop] at h
    | tick ok =>
      simp only [innerLoop] at h
      split at h
      · exact Nat.lt_trans (ih h) (by simp)
      · cases h

/-- the outer loop of Player.Play, from the read of the queue head to the
return of the run loop, as a function of the guild store and the event
script. Returns the final store, the emitted step trace and the reason
the loop returned. -/
def playLoop (st : GuildStore) (evs : List Ev) : GuildStore × List Step × Outcome :=
  match hpl : st.playlist with
  | [] =>
    ({ st with state := none }, [.delState], .drained)
  | .malformed :: rest =>
    let r := playLoop { st with playlist := rest } evs
    (r.1, .popMalformed :: r.2.1, r.2.2)
  | .track t :: rest =>
    match hin : innerLoop evs with
    | (.done, evs2) =>
      let r := playLoop { st with playlist := rest } evs2
      (r.1, .playAttempt t :: .popCompleted :: r.2.1, r.2.2)
    | (.cancel, _) => (st, [.playAttempt t], .cancelled)
    | (.lost, _) => (st, [.playAttempt t, .extendFail], .leaseLost)
    | (.stuck, _) => (st, [.playAttempt t], .stuck)
termination_by (evs.length, st.playlist.length)
decreasing_by
  · exact Prod.Lex.right _ (by simp [hpl])
  · exact Prod.Lex.left _ _ (innerLoop_done_length evs evs2 hin)

/-- playback attempts of a step trace, in order. -/
def attemptsOf (steps : List Step) : List TrackData :=
  steps.filterMap fun s =>
    match s with
    | .playAttempt t => some t
    | _ => none

/-- RPUSH: append one serialized envelope at the tail of the playlist. -/
def rpush (q : List Entry) (e : Entry) : List Entry := q ++ [e]

/-! ### Player.Fulfill (player.go)

Fulfill reads the state key with GET: a missing key surfaces as
redis.ErrNil, which the code tolerates and leaves the state string empty,
so absence and "stopped" share a switch case. The stopped case signals a
registered cancel handle if one exists and mutates nothing else; the
playing case is a no-op when a handle is already registered, and otherwise
acquires the player lock (retried until it succeeds, modelled as the
eventual success), registers the cancel handle and spawns the Play
goroutine. Any other state string matches no switch case and does
nothing. Fulfill issues no redis write, so the store passes through
unchanged; the registry bookkeeping is recorded in a CtrlState, with
append-only logs of signalled handles, spawned sessions and acquired
locks so the theorems can count these effects. -/
structure CtrlState where
  handles : List String
  signalled : List String
  spawned : List String
  leases : List String
deriving DecidableEq

/-- the reconcile step Player.Fulfill for one guild. -/
def fulfill (store : GuildStore) (gid : String) (c : CtrlState) : GuildStore × CtrlState :=
  let state := store.state.getD ""
  if state = "" ∨ state = "stopped" then
    if gid ∈ c.handles then
      (store, { c with signalled := c.signalled ++ [gid] })
    else (store, c)
  else if state = "playing" then
    if gid ∈ c.handles then (store, c)
    else
      (store, { c with
          leases := c.leases ++ [gid],
          handles := c.handles ++ [gid],
          spawned := c.spawned ++ [gid] })
  else (store, c)

/-! ### Unfolding lemmas for the branches of the session loop -/

theorem playLoop_nil (sk ch : Option String) (evs : List Ev) :
    playLoop ⟨sk, ch, []⟩ evs = (⟨none, ch, []⟩, [.delState], .drained) := by
  rw [playLoop]

theorem playLoop_malformed (sk ch : Option String) (rest : List Entry) (evs : List Ev) :
    playLoop ⟨sk, ch, .malformed :: rest⟩ evs =
      ((playLoop ⟨sk, ch, rest⟩ evs).1,
        .popMalformed :: (playLoop ⟨sk, ch, rest⟩ evs).2.1,
        (playLoop ⟨sk, ch, rest⟩ evs).2.2) := by
  rw [playLoop]

theorem playLoop_track_done (sk ch : Option String) (t : TrackData) (rest : List Entry)
    (evs evs2 : List Ev) (hin : innerLoop evs = (.done, evs2)) :
    playLoop ⟨sk, ch, .track t :: rest⟩ evs =
      ((playLoop ⟨sk, ch, rest⟩ evs2).1,
        .playAttempt t :: .popCompleted :: (playLoop ⟨sk, ch, rest⟩ evs2).2.1,
        (playLoop ⟨sk, ch, rest⟩ evs2).2.2) := by
  rw [playLoop, hin]

theorem playLoop_track_cancel (sk ch : Option String) (t : TrackData) (rest : List Entry)
    (evs evs2 : List Ev) (hin : innerLoop evs = (.cancel, evs2)) :
    playLoop ⟨sk, ch, .track t :: rest⟩ evs =
      (⟨sk, ch, .track t :: rest⟩, [.playAttempt t], .cancelled) := by
  rw [playLoop, hin]

theorem playLoop_track_lost (sk ch : Option String) (t : TrackData) (rest : List Entry)
    (evs evs2 : List Ev) (hin : innerLoop evs = (.lost, evs2)) :
    playLoop ⟨sk, ch, .track t :: rest⟩ evs =
      (⟨sk, ch, .track t :: rest⟩, [.playAttempt t, .extendFail], .leaseLost) := by
  rw [playLoop, hin]

theorem playLoop_track_stuck (sk ch : Option String) (t : TrackData) (rest : List Entry)
    (evs evs2 : List Ev) (hin : innerLoop evs = (.stuck, evs2)) :
    playLoop ⟨sk, ch, .track t :: rest⟩ evs =
      (⟨sk, ch, .track t :: rest⟩, [.playAttempt t], .stuck) := by
  rw [playLoop, hin]

/-! ### Helper lemmas on the session trace -/

theorem playLoop_extendFail_cases (st : GuildStore) (evs : List Ev) :
    ((playLoop st evs).2.2 = .leaseLost ∧
      ∃ pre, (playLoop st evs).2.1 = pre ++ [.extendFail] ∧ .extendFail ∉ pre) ∨
    .extendFail ∉ (playLoop st evs).2.1 := by
  induction st, evs using playLoop.induct with
  | case1 st evs hpl =>
    obtain ⟨sk, ch, pl⟩ := st
    simp only at hpl
    subst hpl
    right
    simp [playLoop_nil]
  | case2 st evs rest hpl ih =>
    obtain ⟨sk, ch, pl⟩ := st
    simp only at hpl ih
    subst hpl
    rw [playLoop_malformed]
    rcases ih with ⟨hout, pre, hsteps, hmem⟩ | hmem
    · left
      exact ⟨hout, .popMalformed :: pre, by simp [hsteps], by simp [hmem]⟩
    · right
      simp [hmem]
  | case3 st evs t rest hpl evs2 hin ih =>
    obtain ⟨sk, ch, pl⟩ := st
    simp only at hpl ih
    subst hpl
    rw [playLoop_track_done sk ch t rest evs evs2 hin]
    rcases ih with ⟨hout, pre, hsteps, hmem⟩ | hmem
    · left
      exact ⟨hout, .playAttempt t :: .popCompleted :: pre, by simp [hsteps], by simp [hmem]⟩
    · right
      simp [hmem]
  | case4 st evs t rest hpl e hin =>
    obtain ⟨sk, ch, pl⟩ := st
    simp only at hpl
    subst hpl
    right
    rw [playLoop_track_cancel sk ch t rest evs e hin]
    simp
  | case5 st evs t rest hpl e hin =>
    obtain ⟨sk, ch, pl⟩ := st
    simp only at hpl
    subst hpl
    left
    rw [playLoop_track_lost sk ch t rest evs e hin]
    exact ⟨rfl, [.playAttempt t], by simp, by simp⟩
  | case6 st evs t rest hpl e hin =>
    obtain ⟨sk, ch, pl⟩ := st
    simp only at hpl
    subst hpl
    right
    rw [playLoop_track_stuck sk ch t rest evs e hin]
    simp

theorem playLoop_cancelled_shape (st : GuildStore) (evs : List Ev)
    (hc : (playLoop st evs).2.2 = .cancelled) :
    (playLoop st evs).1.state = st.state ∧
    (playLoop st evs).1.channel = st.channel ∧
    ∃ t rest, (playLoop st evs).1.playlist = .track t :: rest ∧
      ∃ pre, (playLoop st evs).2.1 = pre ++ [.playAttempt t] := by
  induction st, evs using playLoop.induct with
  | case1 st evs hpl =>
    obtain ⟨sk, ch, pl⟩ := st
    simp only at hpl
    subst hpl
    rw [playLoop_nil] at hc
    cases hc
  | case2 st evs rest hpl ih =>
    obtain ⟨sk, ch, pl⟩ := st
    simp only at hpl ih
    subst hpl
    rw [playLoop_malformed] at hc ⊢
    obtain ⟨h1, h2, t, rest2, h3, pre, h4⟩ := ih hc
    exact ⟨h1, h2, t, rest2, h3, .popMalformed :: pre, by simp [h4]⟩
  | case3 st evs t rest hpl evs2 hin ih =>
    obtain ⟨sk, ch, pl⟩ := st
    simp only at hpl ih
    subst hpl
    rw [playLoop_track_done sk ch t rest evs evs2 hin] at hc ⊢
    obtain ⟨h1, h2, t2, rest2, h3, pre, h4⟩ := ih hc
    exact ⟨h1, h2, t2, rest2, h3, .playAttempt t :: .popCompleted :: pre, by simp [h4]⟩
  | case4 st evs t rest hpl e hin =>
    obtain ⟨sk, ch, pl⟩ := st
    simp only at hpl
    subst hpl
    rw [playLoop_track_cancel sk ch t rest evs e hin]
    exact ⟨rfl, rfl, t, rest, rfl, [], by simp⟩
  | case5 st evs t rest hpl e hin =>
    obtain ⟨sk, ch, pl⟩ := st
    simp only at hpl
    subst hpl
    rw [playLoop_track_lost sk ch t rest evs e hin] at hc
    cases hc
  | case6 st evs t rest hpl e hin =>
    obtain ⟨sk, ch, pl⟩ := st
    simp only at hpl
    subst hpl
    rw [playLoop_track_stuck sk ch t rest evs e hin] at hc
    cases hc

theorem eq_append_singleton_not_mem {α : Type} (a : α) (q : List α) :
    ∀ (p post : List α), a ∉ q → p ++ a :: post = q ++ [a] → post = [] := by
  induction q with
  | nil =>
    intro p post _ h
    cases p with
    | nil => simpa using h
    | cons x xs =>
      simp only [List.cons_append, List.nil_append, List.cons.injEq] at h
      obtain ⟨_, h2⟩ := h
      cases xs <;> simp at h2
  | cons b q ih =>
    intro p post hnm h
    cases p with
    | nil =>
      simp only [List.nil_append, List.cons_append, List.cons.injEq] at h
      obtain ⟨hab, _⟩ := h
      exact absurd (hab ▸ List.mem_cons_self b q) hnm
    | cons x xs =>
      simp only [List.cons_append, List.cons.injEq] at h
      obtain ⟨_, h2⟩ := h
      exact ih xs post (fun hm => hnm (List.mem_cons_of_mem b hm)) h2

/-! ### Claim theorems for the session and the reconcile step -/

/-- C1: whenever a periodic lease extension attempt fails, the session
terminates immediately: the failed extension is the last element of the
step trace, so no later playback attempt starts, the current head is never
popped as finished, and the run loop returns reporting the lost lease. -/
theorem extendFailure_terminates_session (st : GuildStore) (evs : List Ev)
    (pre post : List Step)
    (h : (playLoop st evs).2.1 = pre ++ .extendFail :: post) :
    post = [] ∧ (playLoop st evs).2.2 = .leaseLost := by
  rcases playLoop_extendFail_cases st evs with ⟨hout, q, hq, hnm⟩ | hmem
  · refine ⟨?_, hout⟩
    exact eq_append_singleton_not_mem .extendFail q pre post hnm (by rw [← h, hq])
  · exfalso
    apply hmem
    rw [h]
    simp

/-- witness for extendFailure_terminates_session: one queued track, the
first select resolution is a failed extension. -/
theorem extendFailure_terminates_session_witness :
    ([] : List Step) = [] ∧
      (playLoop ⟨some "playing", some "200", [.track ⟨"A", "a"⟩]⟩ [.tick false]).2.2 = .leaseLost :=
  extendFailure_terminates_session ⟨some "playing", some "200", [.track ⟨"A", "a"⟩]⟩
    [.tick false] [.playAttempt ⟨"A", "a"⟩] []
    (by rw [playLoop_track_lost _ _ _ _ _ [] (by rfl)]; rfl)

/-- C2: with desired state playing and no intervening transition, running
the reconcile step twice in a row spawns at most one session and registers
at most one cancel handle: the second call leaves both the store and the
registry exactly as the first call left them, the guild has a handle after
the first call, and the spawn log grows by at most one entry. -/
theorem fulfill_playing_idempotent (store : GuildStore) (gid : String) (c : CtrlState)
    (h : store.state = some "playing") :
    fulfill store gid (fulfill store gid c).2 = (store, (fulfill store gid c).2) ∧
    gid ∈ ((fulfill store gid c).2).handles ∧
    ((fulfill store gid c).2).spawned.count gid ≤ c.spawned.count gid + 1 ∧
    ((fulfill store gid c).2).handles.count gid ≤ max (c.handles.count gid) 1 := by
  by_cases hh : gid ∈ c.handles
  · have h1 : fulfill store gid c = (store, c) := by
      simp [fulfill, h, hh]
    refine ⟨?_, ?_, ?_, ?_⟩
    · rw [h1]
      simp [fulfill, h, hh]
    · rw [h1]
      exact hh
    · rw [h1]
      simp
    · rw [h1]
      exact le_max_left _ _
  · have h1 : fulfill store gid c =
        (store, { c with
          leases := c.leases ++ [gid],
          handles := c.handles ++ [gid],
          spawned := c.spawned ++ [gid] }) := by
      simp [fulfill, h, hh]
    refine ⟨?_, ?_, ?_, ?_⟩
    · rw [h1]
      simp [fulfill, h]
    · rw [h1]
      simp
    · rw [h1]
      simp [List.count_append]
    · rw [h1]
      have : c.handles.count gid = 0 := List.count_eq_zero.mpr hh
      simp [List.count_append, this]

/-- witness for fulfill_playing_idempotent: empty registry, state playing. -/
theorem fulfill_playing_idempotent_witness :
    fulfill ⟨some "playing", some "200", []⟩ "100"
        (fulfill ⟨some "playing", some "200", []⟩ "100" ⟨[], [], [], []⟩).2 =
      (⟨some "playing", some "200", []⟩,
        (fulfill ⟨some "playing", some "200", []⟩ "100" ⟨[], [], [], []⟩).2) ∧
    "100" ∈ ((fulfill ⟨some "playing", some "200", []⟩ "100" ⟨[], [], [], []⟩).2).handles :=
  ⟨(fulfill_playing_idempotent ⟨some "playing", some "200", []⟩ "100" ⟨[], [], [], []⟩ rfl).1,
    (fulfill_playing_idempotent ⟨some "playing", some "200", []⟩ "100" ⟨[], [], [], []⟩ rfl).2.1⟩

/-- C4: a queue head that fails structural decode is removed by exactly one
destructive pop, after which the session continues with the new head; in
particular the queue [malformed, B] yields a playback attempt on B only,
with the malformed entry removed, inside one call of the read loop. -/
theorem malformedHead_popped_once (sk ch : Option String) (rest : List Entry)
    (evs : List Ev) (b : TrackData) :
    playLoop ⟨sk, ch, .malformed :: rest⟩ evs =
      ((playLoop ⟨sk, ch, rest⟩ evs).1,
        .popMalformed :: (playLoop ⟨sk, ch, rest⟩ evs).2.1,
        (playLoop ⟨sk, ch, rest⟩ evs).2.2) ∧
    playLoop ⟨sk, ch, [.malformed, .track b]⟩ [.trackDone false] =
      (⟨none, ch, []⟩, [.popMalformed, .playAttempt b, .popCompleted, .delState], .drained) ∧
    attemptsOf [.popMalformed, .playAttempt b, .popCompleted, .delState] = [b] := by
  refine ⟨playLoop_malformed sk ch rest evs, ?_, by simp [attemptsOf]⟩
  rw [playLoop_malformed, playLoop_track_done sk ch b [] [.trackDone false] [] rfl, playLoop_nil]

/-- C5: a session observing an empty queue deletes the guild state key and
returns cleanly with no pop; afterwards any reconcile step reads the
missing key as stopped: it at most signals an existing handle and never
spawns. -/
theorem emptyQueue_clears_state (st : GuildStore) (evs : List Ev)
    (h : st.playlist = []) :
    playLoop st evs = ({ st with state := none }, [.delState], .drained) ∧
    ∀ gid c, fulfill (playLoop st evs).1 gid c =
      ((playLoop st evs).1,
        if gid ∈ c.handles then { c with signalled := c.signalled ++ [gid] } else c) := by
  obtain ⟨sk, ch, pl⟩ := st
  simp only at h
  subst h
  rw [playLoop_nil]
  refine ⟨rfl, ?_⟩
  intro gid c
  by_cases hh : gid ∈ c.handles <;> simp [fulfill, hh]

/-- witness for emptyQueue_clears_state at an empty playlist. -/
theorem emptyQueue_clears_state_witness :
    playLoop ⟨some "playing", some "200", []⟩ [] =
      (⟨none, some "200", []⟩, [.delState], .drained) :=
  (emptyQueue_clears_state ⟨some "playing", some "200", []⟩ [] rfl).1

/-- C6: a playing to stopped transition with a running session signals that
session's cancel handle and touches no store key, and a session that
observes outer cancellation returns with the in-flight head still at the
front of the queue (no pop, no state or channel key change), its step
trace ending at that head's playback attempt — so a later playing
transition resumes from the same queue head. -/
theorem stopTransition_drains_session (store : GuildStore) (gid : String) (c : CtrlState)
    (hstop : store.state = some "stopped") (hh : gid ∈ c.handles)
    (st : GuildStore) (evs : List Ev)
    (hc : (playLoop st evs).2.2 = .cancelled) :
    fulfill store gid c = (store, { c with signalled := c.signalled ++ [gid] }) ∧
    (playLoop st evs).1.state = st.state ∧
    (playLoop st evs).1.channel = st.channel ∧
    ∃ t rest, (playLoop st evs).1.playlist = .track t :: rest ∧
      ∃ pre, (playLoop st evs).2.1 = pre ++ [.playAttempt t] := by
  refine ⟨?_, playLoop_cancelled_shape st evs hc⟩
  simp [fulfill, hstop, hh]

/-- witness for stopTransition_drains_session: session over one queued
track, cancelled at the first select resolution. -/
theorem stopTransition_drains_session_witness :
    fulfill ⟨some "stopped", some "200", []⟩ "100" ⟨["100"], [], [], []⟩ =
      (⟨some "stopped", some "200", []⟩, ⟨["100"], ["100"], [], []⟩) ∧
    (playLoop ⟨some "playing", some "200", [.track ⟨"A", "a"⟩]⟩ [.ctxDone]).1.state = some "playing" :=
  ⟨(stopTransition_drains_session ⟨some "stopped", some "200", []⟩ "100" ⟨["100"], [], [], []⟩
      rfl (by simp) ⟨some "playing", some "200", [.track ⟨"A", "a"⟩]⟩ [.ctxDone]
      (by rw [playLoop_track_cancel (some "playing") (some "200") ⟨"A", "a"⟩ [] [.ctxDone] [] rfl])).1,
    (stopTransition_drains_session ⟨some "stopped", some "200", []⟩ "100" ⟨["100"], [], [], []⟩
      rfl (by simp) ⟨some "playing", some "200", [.track ⟨"A", "a"⟩]⟩ [.ctxDone]
      (by rw [playLoop_track_cancel (some "playing") (some "200") ⟨"A", "a"⟩ [] [.ctxDone] [] rfl])).2.1⟩

/-- C7: a missing state key reconciles exactly as an explicit stopped
state: identical registry effect, no session spawned, no lease acquired,
no handle change, and no store mutation beyond the read. -/
theorem fulfill_absent_state_is_stopped (store : GuildStore) (gid : String) (c : CtrlState)
    (h : store.state = none) :
    (fulfill store gid c).2 = (fulfill { store with state := some "stopped" } gid c).2 ∧
    (fulfill store gid c).1 = store ∧
    ((fulfill store gid c).2).spawned = c.spawned ∧
    ((fulfill store gid c).2).leases = c.leases ∧
    ((fulfill store gid c).2).handles = c.handles := by
  by_cases hh : gid ∈ c.handles <;> simp [fulfill, h, hh]

/-- witness for fulfill_absent_state_is_stopped with no state key set. -/
theorem fulfill_absent_state_is_stopped_witness :
    (fulfill ⟨none, some "200", []⟩ "100" ⟨[], [], [], []⟩).2 =
      (fulfill ⟨some "stopped", some "200", []⟩ "100" ⟨[], [], [], []⟩).2 ∧
    (fulfill ⟨none, some "200", []⟩ "100" ⟨[], [], [], []⟩).1 = ⟨none, some "200", []⟩ :=
  ⟨(fulfill_absent_state_is_stopped ⟨none, some "200", []⟩ "100" ⟨[], [], [], []⟩ rfl).1,
    (fulfill_absent_state_is_stopped ⟨none, some "200", []⟩ "100" ⟨[], [], [], []⟩ rfl).2.1⟩

/-- steps of a clean drain of a fully well-formed queue: one playback
attempt and one destructive pop per entry, in queue order, then the state
key deletion. -/
def fifoSteps : List TrackData → List Step
  | [] => [.delState]
  | t :: ts => .playAttempt t :: .popCompleted :: fifoSteps ts

/-- C8: queue entries drain strictly head first: with a clean stream end
after every track, a fully well-formed queue produces playback attempts in
exactly queue order, each followed by a destructive pop of that head; and
RPUSH of envelopes A, B, C onto an empty queue builds the queue [A, B, C]. -/
theorem fifo_drain (sk ch : Option String) (ts : List TrackData) :
    playLoop ⟨sk, ch, ts.map .track⟩ (ts.map fun _ => .trackDone false) =
      (⟨none, ch, []⟩, fifoSteps ts, .drained) ∧
    attemptsOf (fifoSteps ts) = ts ∧
    ∀ (a b c : Entry), rpush (rpush (rpush [] a) b) c = [a, b, c] := by
  refine ⟨?_, ?_, fun a b c => by simp [rpush]⟩
  · induction ts with
    | nil => simpa [fifoSteps] using playLoop_nil sk ch []
    | cons t ts ih =>
      simp only [List.map_cons]
      rw [playLoop_track_done sk ch t (ts.map .track)
        (.trackDone false :: ts.map fun _ => .trackDone false) (ts.map fun _ => .trackDone false) rfl]
      rw [ih]
      simp [fifoSteps]
  · induction ts with
    | nil => simp [fifoSteps, attemptsOf]
    | cons t ts ih => simp [fifoSteps, attemptsOf] at ih ⊢; exact ih

/-! ### TrackEnvelope.UnmarshalJSON (part_002)

The decoder runs in two passes over the payload bytes: json.Unmarshal into
a temporary struct holding the ServiceID string and the raw Track bytes,
then a lookup of the service in the media.Services registry, then
json.Unmarshal of the raw bytes into a blank track of that service. The
receiver fields are assigned only after all three steps succeed. The two
unmarshal calls and the registry are the store- and backend-facing
collaborators, so they enter as function arguments: envParse models the
first json.Unmarshal (none is a JSON error), and each registered service
carries its per-backend track decoder (none is a decode error). The track
type itself is opaque to the decoder, hence the type parameter. -/

/-- reasons TrackEnvelope.UnmarshalJSON returns an error. -/
inductive DecodeErr where
  | badJSON
  | unknownService (sid : String)
  | badTrack
deriving DecidableEq

/-- a registered media service, reduced to what the decoder uses:
NewTrack followed by json.Unmarshal of the raw payload. -/
structure MediaService (T : Type) where
  decodeTrack : String → Option T

/-- the envelope receiver: ServiceID and the Track interface value (none
is the nil interface of a zero-valued receiver). -/
structure TrackEnvelope (T : Type) where
  serviceID : String
  track : Option T
deriving DecidableEq

/-- TrackEnvelope.UnmarshalJSON: first pass decodes the discriminator and
the raw track bytes, the second pass dispatches on the registry and
decodes the backend payload; the receiver is assigned only on full
success, otherwise it is returned untouched together with the error. -/
def unmarshalTrackEnvelope {T : Type}
    (envParse : String → Option (String × String))
    (services : String → Option (MediaService T))
    (e : TrackEnvelope T) (data : String) : TrackEnvelope T × Option DecodeErr :=
  match envParse data with
  | none => (e, some .badJSON)
  | some (sid, raw) =>
    match services sid with
    | none => (e, some (.unknownService sid))
    | some svc =>
      match svc.decodeTrack raw with
      | none => (e, some .badTrack)
      | some t => ({ serviceID := sid, track := some t }, none)

/-- C9: the decode is atomic on error: an error is returned exactly when
the payload fails the first JSON pass, names an unregistered service, or
fails the backend track decode; in every error case the receiver is
unchanged, and on success both receiver fields are set from the payload. -/
theorem unmarshalTrackEnvelope_atomic {T : Type}
    (envParse : String → Option (String × String))
    (services : String → Option (MediaService T))
    (e : TrackEnvelope T) (data : String) :
    (∀ err, (unmarshalTrackEnvelope envParse services e data).2 = some err →
      (unmarshalTrackEnvelope envParse services e data).1 = e) ∧
    (envParse data = none →
      (unmarshalTrackEnvelope envParse services e data).2 = some .badJSON) ∧
    (∀ sid raw, envParse data = some (sid, raw) → services sid = none →
      (unmarshalTrackEnvelope envParse services e data).2 = some (.unknownService sid)) ∧
    (∀ sid raw svc, envParse data = some (sid, raw) → services sid = some svc →
      svc.decodeTrack raw = none →
      (unmarshalTrackEnvelope envParse services e data).2 = some .badTrack) ∧
    ((unmarshalTrackEnvelope envParse services e data).2 = none →
      ∃ sid raw svc t, envParse data = some (sid, raw) ∧ services sid = some svc ∧
        svc.decodeTrack raw = some t ∧
        (unmarshalTrackEnvelope envParse services e data).1 = ⟨sid, some t⟩) := by
  refine ⟨?_, ?_, ?_, ?_, ?_⟩
  · intro err herr
    rcases hp : envParse data with _ | ⟨sid, raw⟩
    · simp [unmarshalTrackEnvelope, hp]
    · rcases hs : services sid with _ | svc
      · simp [unmarshalTrackEnvelope, hp, hs]
      · rcases hd : svc.decodeTrack raw with _ | t
        · simp [unmarshalTrackEnvelope, hp, hs, hd]
        · simp [unmarshalTrackEnvelope, hp, hs, hd] at herr
  · intro hp
    simp [unmarshalTrackEnvelope, hp]
  · intro sid raw hp hs
    simp [unmarshalTrackEnvelope, hp, hs]
  · intro sid raw svc hp hs hd
    simp [unmarshalTrackEnvelope, hp, hs, hd]
  · intro hnone
    rcases hp : envParse data with _ | ⟨sid, raw⟩
    · simp [unmarshalTrackEnvelope, hp] at hnone
    · rcases hs : services sid with _ | svc
      · simp [unmarshalTrackEnvelope, hp, hs] at hnone
      · rcases hd : svc.decodeTrack raw with _ | t
        · simp [unmarshalTrackEnvelope, hp, hs, hd] at hnone
        · exact ⟨sid, raw, svc, t, rfl, hs, hd, by simp [unmarshalTrackEnvelope, hp, hs, hd]⟩

/-- witness for unmarshalTrackEnvelope_atomic: a one-service registry, an
unknown-service payload leaves the receiver untouched. -/
theorem unmarshalTrackEnvelope_atomic_witness :
    (unmarshalTrackEnvelope (T := Nat)
        (fun d => if d = "ok" then some ("soundcloud", "1") else some ("bogus", "1"))
        (fun sid => if sid = "soundcloud" then some ⟨fun _ => some 1⟩ else none)
        ⟨"", none⟩ "bad").1 = ⟨"", none⟩ :=
  (unmarshalTrackEnvelope_atomic
      (fun d => if d = "ok" then some ("soundcloud", "1") else some ("bogus", "1"))
      (fun sid => if sid = "soundcloud" then some ⟨fun _ => some 1⟩ else none)
      ⟨"", none⟩ "bad").1 (.unknownService "bogus") (by rfl)

/-! ### Responder enqueue loop (responder.go) and soundcloud Track

The resolved tracks of a message are pushed in a single loop: a track
whose GetPlayable returns false is skipped with continue, every other
track is wrapped in an envelope naming its service and RPUSHed at the
playlist tail. Afterwards every resolved track, playable or not, is
reported back with one embed; an unplayable one gets the error color and
the failure reason in its footer. json.Marshal of these concrete structs
cannot fail, so the marshal-error early return is unreachable and the
loop is total. -/

/-- the soundcloud user fields carried inside a track. -/
structure SCUser where
  id : Int
  username : String
  permalinkURL : String
  avatarURL : String
deriving DecidableEq

/-- the soundcloud track model (media/soundcloud/model.go). -/
structure SCTrack where
  id : Int
  title : String
  description : String
  user : SCUser
  streamable : Bool
  permalinkURL : String
  artworkURL : String
  streamURL : String
deriving DecidableEq

/-- Track.GetPlayable: a track is playable unless the artist disabled
streaming, in which case the failure reason is reported. -/
def SCTrack.getPlayable (t : SCTrack) : Bool × String :=
  if !t.streamable then (false, "The artist has disabled streaming for this track.")
  else (true, "")

/-- the JSON envelope the responder pushes: the service ID reported by the
track, plus the track itself. -/
structure SCEnvelope where
  serviceID : String
  track : SCTrack
deriving DecidableEq

/-- GetServiceID of a soundcloud track is the constant "soundcloud". -/
def SCTrack.getServiceID (_ : SCTrack) : String := "soundcloud"

/-- the push loop of Responder.HandleMessageCreate over the resolved
tracks: unplayable tracks are skipped, the rest are enveloped and RPUSHed
onto the playlist in order. -/
def pushResolvedTracks (tracks : List SCTrack) (playlist : List SCEnvelope) :
    List SCEnvelope :=
  match tracks with
  | [] => playlist
  | t :: ts =>
    if (t.getPlayable).1 = false then pushResolvedTracks ts playlist
    else pushResolvedTracks ts (playlist ++ [⟨t.getServiceID, t⟩])

/-- one report embed: color and footer text as built at the end of
HandleMessageCreate. -/
structure ReportEmbed where
  color : Nat
  footerText : String
deriving DecidableEq

/-- attribution text of the soundcloud service (service.go). -/
def scAttributionText : String := "Powered by SoundCloud"

/-- the embed built for one resolved track: green with the service
attribution when playable, red with the failure reason when not. -/
def embedFor (t : SCTrack) : ReportEmbed :=
  let base : ReportEmbed := ⟨0x99ff99, scAttributionText⟩
  if (t.getPlayable).1 = false then ⟨0xff3333, "Error: " ++ (t.getPlayable).2⟩
  else base

/-- the report loop: every resolved track gets exactly one embed. -/
def reportEmbeds (tracks : List SCTrack) : List ReportEmbed :=
  tracks.map embedFor

theorem pushResolvedTracks_characterization (tracks : List SCTrack) :
    ∀ playlist, pushResolvedTracks tracks playlist =
      playlist ++ (tracks.filter fun t => (t.getPlayable).1).map fun t => ⟨t.getServiceID, t⟩ := by
  induction tracks with
  | nil => intro playlist; simp [pushResolvedTracks]
  | cons t ts ih =>
    intro playlist
    by_cases hp : (t.getPlayable).1 = false
    · simp [pushResolvedTracks, hp, ih, List.filter_cons]
    · simp only [Bool.not_eq_false] at hp
      simp [pushResolvedTracks, hp, ih, List.filter_cons]

/-- C10: the responder never enqueues an unplayable track: every envelope
it appends to the playlist wraps a track whose GetPlayable was true at
enqueue time; an unplayable track is only reported back, with one embed
carrying the failure reason, and contributes nothing to the queue. -/
theorem responder_skips_unplayable (tracks : List SCTrack) (playlist : List SCEnvelope)
    (e : SCEnvelope) (he : e ∈ pushResolvedTracks tracks playlist) :
    (e ∈ playlist ∨ ((e.track.getPlayable).1 = true ∧ e.track ∈ tracks)) ∧
    (∀ t ∈ tracks, (t.getPlayable).1 = false →
      (⟨t.getServiceID, t⟩ : SCEnvelope) ∉
        pushResolvedTracks tracks [] ∧
      embedFor t = ⟨0xff3333, "Error: " ++ (t.getPlayable).2⟩) ∧
    (reportEmbeds tracks).length = tracks.length := by
  refine ⟨?_, ?_, by simp [reportEmbeds]⟩
  · rw [pushResolvedTracks_characterization] at he
    rcases List.mem_append.mp he with h | h
    · exact Or.inl h
    · right
      obtain ⟨t, ht, rfl⟩ := List.mem_map.mp h
      have := List.mem_filter.mp ht
      exact ⟨this.2, this.1⟩
  · intro t ht hf
    refine ⟨?_, by simp [embedFor, hf]⟩
    rw [pushResolvedTracks_characterization]
    simp only [List.nil_append]
    intro hmem
    obtain ⟨t2, ht2, heq⟩ := List.mem_map.mp hmem
    have h2 := (List.mem_filter.mp ht2).2
    have : t2 = t := congrArg SCEnvelope.track heq
    rw [this] at h2
    rw [hf] at h2
    cases h2

/-- witness for responder_skips_unplayable: one playable and one
unplayable track; the queued envelope wraps the playable one. -/
theorem responder_skips_unplayable_witness :
    ((⟨"soundcloud", ⟨1, "t1", "", ⟨1, "u", "", ""⟩, true, "", "", ""⟩⟩ : SCEnvelope) ∈
        ([] : List SCEnvelope) ∨
      (((⟨"soundcloud", ⟨1, "t1", "", ⟨1, "u", "", ""⟩, true, "", "", ""⟩⟩ : SCEnvelope)).track.getPlayable).1 = true ∧
        (⟨1, "t1", "", ⟨1, "u", "", ""⟩, true, "", "", ""⟩ : SCTrack) ∈
          [⟨1, "t1", "", ⟨1, "u", "", ""⟩, true, "", "", ""⟩,
            ⟨2, "t2", "", ⟨1, "u", "", ""⟩, false, "", "", ""⟩]) :=
  (responder_skips_unplayable
    [⟨1, "t1", "", ⟨1, "u", "", ""⟩, true, "", "", ""⟩,
      ⟨2, "t2", "", ⟨1, "u", "", ""⟩, false, "", "", ""⟩]
    [] ⟨"soundcloud", ⟨1, "t1", "", ⟨1, "u", "", ""⟩, true, "", "", ""⟩⟩
    (by simp [pushResolvedTracks, SCTrack.getPlayable, SCTrack.getServiceID])).1

end Hiqty
